/-
  Verification of the gpuocelot dynamic-instrumentation and trace subsystem.

  Shallow embedding of:
  * `BasicBlockInstrumentor` (branches/lynx/ocelot/analysis/implementation/
    BasicBlockInstrumentor.cpp): counter layout, pass creation, analysis,
    result extraction;
  * `MemoryTraceGenerator` (ocelot/trace/implementation/
    MemoryTraceGenerator.cpp): the trace header state machine, the per-event
    load/store/texture walk, the parameter-extent computation and `finish`.

  Machine integers (PTXU64 etc.) are modelled as `Nat`, with an explicit
  `% 2 ^ 64` where 64-bit wrap-around matters (address arithmetic);
  monotone counters are modelled as unbounded naturals.
-/
import Mathlib

/-! ## Counter layout (BasicBlockInstrumentor.cpp, lines 64/102/123-125)

The flattened counter index used by both the allocation-sizing path and the
extraction loops: `info[(i*entries*threads) + (k*basicBlocks*threads*entries)
+ j]` with `j = t*entries + e`. -/

def counterIndex (entries basicBlocks threads : Nat) (b e t k : Nat) : Nat :=
  b * entries * threads + k * basicBlocks * threads * entries + t * entries + e

/-! ## Instrumentation type and pass creation
(BasicBlockInstrumentor.h lines 22-26, BasicBlockInstrumentor.cpp lines 76-98)

The C++ enum `BasicBlockInstrumentationType` is an integer type; the `type`
member is not set by the constructor, so it can hold any integer value and the
`switch` in `createPass` has a `default` case throwing an exception.  We model
the type as `Nat` with the enumerator values 0, 1, 2. -/

def instructionCount : Nat := 0

def executionCount : Nat := 1

def memoryIntensity : Nat := 2

/-- Which concrete pass object `createPass` instantiates. -/
inductive PassKind where
  | basicBlockExecutionCountPass
  | dynamicInstructionCountPass
  | memoryIntensityPass
deriving DecidableEq, Repr

/-- Result of `createPass`: the instantiated pass together with the
`entries` value stored both in the instrumentor and in the pass. -/
structure PassResult where
  kind : PassKind
  entries : Nat
deriving DecidableEq, Repr

/-- BasicBlockInstrumentor::createPass (lines 76-98): `entries` starts at 1,
the switch picks the pass (setting `entries = 2` for `memoryIntensity`),
and the default case throws
"No basic block instrumentation pass specified!". -/
def createPass (type : Nat) : Except String PassResult :=
  if type = executionCount then
    Except.ok ⟨PassKind.basicBlockExecutionCountPass, 1⟩
  else if type = instructionCount then
    Except.ok ⟨PassKind.dynamicInstructionCountPass, 1⟩
  else if type = memoryIntensity then
    Except.ok ⟨PassKind.memoryIntensityPass, 2⟩
  else
    Except.error "No basic block instrumentation pass specified!"

/-! ## Helper lemmas for the mixed-radix layout -/

theorem counterIndex_nested (E B T b e t k : Nat) :
    counterIndex E B T b e t k = e + E * (t + T * (b + B * k)) := by
  unfold counterIndex; ring

theorem addMul_inj {n a a' x x' : Nat} (ha : a < n) (ha' : a' < n)
    (h : a + n * x = a' + n * x') : a = a' ∧ x = x' := by
  have hmod : (a + n * x) % n = (a' + n * x') % n := by rw [h]
  rw [Nat.add_mul_mod_self_left, Nat.add_mul_mod_self_left,
    Nat.mod_eq_of_lt ha, Nat.mod_eq_of_lt ha'] at hmod
  refine ⟨hmod, ?_⟩
  subst hmod
  have hx : n * x = n * x' := by omega
  exact Nat.eq_of_mul_eq_mul_left (Nat.lt_of_le_of_lt (Nat.zero_le a) ha) hx

theorem addMul_lt {n a x m : Nat} (ha : a < n) (hx : x < m) :
    a + n * x < n * m := by
  calc a + n * x < n + n * x := by omega
  _ = n * (x + 1) := by ring
  _ ≤ n * m := Nat.mul_le_mul_left n hx

/-- Claim C1: for positive {entries, basicBlocks, threadBlocks, threads}, the
flattened counter-index function
`index(b,e,t,k) = b*entries*threads + k*basicBlocks*threads*entries +
t*entries + e` is injective over the full index space and its maximum value is
exactly `entries*basicBlocks*threadBlocks*threads - 1`: every in-range index
is bounded by that value and the bound is attained at the last slot. -/
theorem c1_counterIndex_injective_and_max
    (entries basicBlocks threadBlocks threads : Nat)
    (hE : 0 < entries) (hB : 0 < basicBlocks)
    (hK : 0 < threadBlocks) (hT : 0 < threads) :
    (∀ b e t k b' e' t' k',
      b < basicBlocks → e < entries → t < threads → k < threadBlocks →
      b' < basicBlocks → e' < entries → t' < threads → k' < threadBlocks →
      counterIndex entries basicBlocks threads b e t k =
        counterIndex entries basicBlocks threads b' e' t' k' →
      b = b' ∧ e = e' ∧ t = t' ∧ k = k') ∧
    (∀ b e t k,
      b < basicBlocks → e < entries → t < threads → k < threadBlocks →
      counterIndex entries basicBlocks threads b e t k ≤
        entries * basicBlocks * threadBlocks * threads - 1) ∧
    counterIndex entries basicBlocks threads
        (basicBlocks - 1) (entries - 1) (threads - 1) (threadBlocks - 1) =
      entries * basicBlocks * threadBlocks * threads - 1 := by
  refine ⟨?_, ?_, ?_⟩
  · intro b e t k b' e' t' k' hb he ht hk hb' he' ht' hk' heq
    rw [counterIndex_nested, counterIndex_nested] at heq
    obtain ⟨he2, heq⟩ := addMul_inj he he' heq
    obtain ⟨ht2, heq⟩ := addMul_inj ht ht' heq
    obtain ⟨hb2, hk2⟩ := addMul_inj hb hb' heq
    exact ⟨hb2, he2, ht2, hk2⟩
  · intro b e t k hb he ht hk
    have h1 : b + basicBlocks * k < basicBlocks * threadBlocks :=
      addMul_lt hb hk
    have h2 : t + threads * (b + basicBlocks * k) <
        threads * (basicBlocks * threadBlocks) := addMul_lt ht h1
    have h3 : e + entries * (t + threads * (b + basicBlocks * k)) <
        entries * (threads * (basicBlocks * threadBlocks)) := addMul_lt he h2
    have h4 : entries * (threads * (basicBlocks * threadBlocks)) =
        entries * basicBlocks * threadBlocks * threads := by ring
    rw [counterIndex_nested]
    omega
  · obtain ⟨e0, rfl⟩ : ∃ e0, entries = e0 + 1 :=
      ⟨entries - 1, by omega⟩
    obtain ⟨b0, rfl⟩ : ∃ b0, basicBlocks = b0 + 1 :=
      ⟨basicBlocks - 1, by omega⟩
    obtain ⟨k0, rfl⟩ : ∃ k0, threadBlocks = k0 + 1 :=
      ⟨threadBlocks - 1, by omega⟩
    obtain ⟨t0, rfl⟩ : ∃ t0, threads = t0 + 1 :=
      ⟨threads - 1, by omega⟩
    simp only [Nat.add_sub_cancel]
    have hexp : counterIndex (e0 + 1) (b0 + 1) (t0 + 1) b0 e0 t0 k0 + 1 =
        (e0 + 1) * (b0 + 1) * (k0 + 1) * (t0 + 1) := by
      unfold counterIndex; ring
    omega

/-- Witness for C1 at the spec's regression geometry entries=2, basicBlocks=3,
threadBlocks=2, threads=4: the last slot's index is 47 = 2*3*2*4 - 1. -/
theorem c1_witness :
    counterIndex 2 3 4 2 1 3 1 = 2 * 3 * 2 * 4 - 1 :=
  (c1_counterIndex_injective_and_max 2 3 2 4
    (by decide) (by decide) (by decide) (by decide)).2.2

/-- Claim C5: `createPass` returns a pass whose `entries` value is 2 for
`memoryIntensity`, 1 for `executionCount` and `instructionCount`, and throws
the configuration-error exception for any other type value.  The function is
pure arithmetic on the type tag: no device interaction is modelled or needed
before the error is raised. -/
theorem c5_createPass_entries :
    createPass memoryIntensity =
      Except.ok ⟨PassKind.memoryIntensityPass, 2⟩ ∧
    createPass executionCount =
      Except.ok ⟨PassKind.basicBlockExecutionCountPass, 1⟩ ∧
    createPass instructionCount =
      Except.ok ⟨PassKind.dynamicInstructionCountPass, 1⟩ ∧
    (∀ type : Nat, type ≠ instructionCount → type ≠ executionCount →
      type ≠ memoryIntensity →
      createPass type =
        Except.error "No basic block instrumentation pass specified!") := by
  refine ⟨rfl, rfl, rfl, ?_⟩
  intro type h0 h1 h2
  unfold createPass
  rw [if_neg h1, if_neg h0, if_neg h2]

/-- Witness for C5 at the concrete unset/garbage type value 7: the
configuration error is raised. -/
theorem c5_witness :
    createPass 7 =
      Except.error "No basic block instrumentation pass specified!" :=
  c5_createPass_entries.2.2.2 7 (by decide) (by decide) (by decide)

/-! ## Result extraction (BasicBlockInstrumentor.cpp, lines 100-142)

`_kernelProfile` maps are `std::map` with `operator[]` default-inserting 0; we
model them as total functions `Nat → Nat` defaulting to 0.  The loops are

    for(k = 0; k < threadBlocks; k++)
      for(i = 0; i < basicBlocks; i++)
        for(j = 0; j < threads*entries; j = j + entries) {
          execMap[i] += info[i*entries*threads + k*basicBlocks*threads*entries + j];
          if (type == memoryIntensity)
            memMap[i] += info[i*entries*threads + k*basicBlocks*threads*entries + (j+1)];
        }

The `j`-loop performs `threads` iterations with `j = t*entries` when
`entries > 0`, and none when `entries = 0` (the bound `threads*entries` is 0).
Both maps are cleared before the loops run. -/

structure KernelProfile where
  basicBlockExecutionCountMap : Nat → Nat
  memoryOperationsMap : Nat → Nat

def emptyProfile : KernelProfile := ⟨fun _ => 0, fun _ => 0⟩

/-- `m[key] += v` on a defaulted map. -/
def mapAdd (m : Nat → Nat) (key v : Nat) : Nat → Nat :=
  fun x => if x = key then m key + v else m x

/-- Body of the innermost (`j`) loop for a fixed `k` and `i`, iterated for
`t = 0, 1, ...` (so `j = t*entries`). -/
def extractLoopT (type entries basicBlocks threads : Nat) (info : Nat → Nat)
    (k i : Nat) : Nat → KernelProfile → KernelProfile
  | 0, p => p
  | t + 1, p =>
    let p0 := extractLoopT type entries basicBlocks threads info k i t p
    let j := t * entries
    let base := i * entries * threads + k * basicBlocks * threads * entries
    let m1 := mapAdd p0.basicBlockExecutionCountMap i (info (base + j))
    let p1 := { p0 with basicBlockExecutionCountMap := m1 }
    if type = memoryIntensity then
      let m2 := mapAdd p1.memoryOperationsMap i (info (base + (j + 1)))
      { p1 with memoryOperationsMap := m2 }
    else p1

/-- The middle (`i`) loop, iterated for `i = 0, 1, ...`. -/
def extractLoopB (type entries basicBlocks threads : Nat) (info : Nat → Nat)
    (k : Nat) : Nat → KernelProfile → KernelProfile
  | 0, p => p
  | i + 1, p =>
    extractLoopT type entries basicBlocks threads info k i
      (if entries = 0 then 0 else threads)
      (extractLoopB type entries basicBlocks threads info k i p)

/-- The outer (`k`) loop, iterated for `k = 0, 1, ...`. -/
def extractLoopK (type entries basicBlocks threadBlocks threads : Nat)
    (info : Nat → Nat) : Nat → KernelProfile → KernelProfile
  | 0, p => p
  | k + 1, p =>
    extractLoopB type entries basicBlocks threads info k basicBlocks
      (extractLoopK type entries basicBlocks threadBlocks threads info k p)

/-- BasicBlockInstrumentor::extractResults reduction (lines 113-129): both
maps are cleared, then the triple loop accumulates.  The previous profile
`prev` is taken as an argument to model the member state before the call; it
is discarded by the clearing step. -/
def extractResults (type entries basicBlocks threadBlocks threads : Nat)
    (info : Nat → Nat) (prev : KernelProfile) : KernelProfile :=
  let _ := prev
  extractLoopK type entries basicBlocks threadBlocks threads info
    threadBlocks emptyProfile

theorem extractLoopT_exec (type entries basicBlocks threads : Nat)
    (info : Nat → Nat) (k i : Nat) (n : Nat) (p : KernelProfile) (x : Nat) :
    (extractLoopT type entries basicBlocks threads info k i n
        p).basicBlockExecutionCountMap x =
      p.basicBlockExecutionCountMap x +
        (if x = i then
          ∑ t ∈ Finset.range n,
            info (i * entries * threads
              + k * basicBlocks * threads * entries + t * entries)
        else 0) := by
  induction n generalizing x with
  | zero => simp [extractLoopT]
  | succ n ih =>
    rcases eq_or_ne type memoryIntensity with htype | htype
    · subst htype
      rcases eq_or_ne x i with hx | hx
      · subst hx
        simp [extractLoopT, mapAdd, ih, Finset.sum_range_succ]
        omega
      · simp [extractLoopT, mapAdd, hx, ih, Finset.sum_range_succ]
    · rcases eq_or_ne x i with hx | hx
      · subst hx
        simp [extractLoopT, htype, mapAdd, ih, Finset.sum_range_succ]
        omega
      · simp [extractLoopT, htype, mapAdd, hx, ih, Finset.sum_range_succ]

theorem extractLoopT_mem (type entries basicBlocks threads : Nat)
    (info : Nat → Nat) (k i : Nat) (n : Nat) (p : KernelProfile) (x : Nat) :
    (extractLoopT type entries basicBlocks threads info k i n
        p).memoryOperationsMap x =
      p.memoryOperationsMap x +
        (if type = memoryIntensity ∧ x = i then
          ∑ t ∈ Finset.range n,
            info (i * entries * threads
              + k * basicBlocks * threads * entries + (t * entries + 1))
        else 0) := by
  induction n generalizing x with
  | zero => simp [extractLoopT]
  | succ n ih =>
    rcases eq_or_ne type memoryIntensity with htype | htype
    · subst htype
      rcases eq_or_ne x i with hx | hx
      · subst hx
        simp [extractLoopT, mapAdd, ih, Finset.sum_range_succ]
        omega
      · simp [extractLoopT, mapAdd, hx, ih, Finset.sum_range_succ]
    · rcases eq_or_ne x i with hx | hx
      · subst hx
        simp [extractLoopT, htype, mapAdd, ih, Finset.sum_range_succ]
      · simp [extractLoopT, htype, mapAdd, hx, ih, Finset.sum_range_succ]

theorem extractLoopB_exec (type entries basicBlocks threads : Nat)
    (info : Nat → Nat) (k : Nat) (n : Nat) (p : KernelProfile) (x : Nat) :
    (extractLoopB type entries basicBlocks threads info k n
        p).basicBlockExecutionCountMap x =
      p.basicBlockExecutionCountMap x +
        (if x < n then
          ∑ t ∈ Finset.range (if entries = 0 then 0 else threads),
            info (x * entries * threads
              + k * basicBlocks * threads * entries + t * entries)
        else 0) := by
  induction n with
  | zero => simp [extractLoopB]
  | succ n ih =>
    simp only [extractLoopB]
    rw [extractLoopT_exec, ih]
    rcases lt_trichotomy x n with h | h | h
    · have h1 : x ≠ n := Nat.ne_of_lt h
      have h2 : x < n + 1 := Nat.lt_succ_of_lt h
      simp [h, h1, h2]
    · subst h
      simp
    · have h1 : ¬ x < n := Nat.not_lt.mpr (Nat.le_of_lt h)
      have h2 : x ≠ n := (Nat.ne_of_lt h).symm
      have h3 : ¬ x < n + 1 := Nat.not_lt.mpr h
      simp [h1, h2, h3]

theorem extractLoopB_mem (type entries basicBlocks threads : Nat)
    (info : Nat → Nat) (k : Nat) (n : Nat) (p : KernelProfile) (x : Nat) :
    (extractLoopB type entries basicBlocks threads info k n
        p).memoryOperationsMap x =
      p.memoryOperationsMap x +
        (if type = memoryIntensity ∧ x < n then
          ∑ t ∈ Finset.range (if entries = 0 then 0 else threads),
            info (x * entries * threads
              + k * basicBlocks * threads * entries + (t * entries + 1))
        else 0) := by
  induction n with
  | zero => simp [extractLoopB]
  | succ n ih =>
    simp only [extractLoopB]
    rw [extractLoopT_mem, ih]
    rcases eq_or_ne type memoryIntensity with htype | htype
    · subst htype
      rcases lt_trichotomy x n with h | h | h
      · have h1 : x ≠ n := Nat.ne_of_lt h
        have h2 : x < n + 1 := Nat.lt_succ_of_lt h
        simp [h, h1, h2]
      · subst h
        simp
      · have h1 : ¬ x < n := Nat.not_lt.mpr (Nat.le_of_lt h)
        have h2 : x ≠ n := (Nat.ne_of_lt h).symm
        have h3 : ¬ x < n + 1 := Nat.not_lt.mpr h
        simp [h1, h2, h3]
    · simp [htype]

theorem extractLoopK_exec (type entries basicBlocks threadBlocks threads : Nat)
    (info : Nat → Nat) (n : Nat) (p : KernelProfile) (x : Nat) :
    (extractLoopK type entries basicBlocks threadBlocks threads info n
        p).basicBlockExecutionCountMap x =
      p.basicBlockExecutionCountMap x +
        (if x < basicBlocks then
          ∑ k ∈ Finset.range n,
            ∑ t ∈ Finset.range (if entries = 0 then 0 else threads),
              info (x * entries * threads
                + k * basicBlocks * threads * entries + t * entries)
        else 0) := by
  induction n with
  | zero => simp [extractLoopK]
  | succ n ih =>
    simp only [extractLoopK]
    rw [extractLoopB_exec, ih]
    by_cases h : x < basicBlocks
    · simp [h, Finset.sum_range_succ]
      omega
    · simp [h]

theorem extractLoopK_mem (type entries basicBlocks threadBlocks threads : Nat)
    (info : Nat → Nat) (n : Nat) (p : KernelProfile) (x : Nat) :
    (extractLoopK type entries basicBlocks threadBlocks threads info n
        p).memoryOperationsMap x =
      p.memoryOperationsMap x +
        (if type = memoryIntensity ∧ x < basicBlocks then
          ∑ k ∈ Finset.range n,
            ∑ t ∈ Finset.range (if entries = 0 then 0 else threads),
              info (x * entries * threads
                + k * basicBlocks * threads * entries + (t * entries + 1))
        else 0) := by
  induction n with
  | zero => simp [extractLoopK]
  | succ n ih =>
    simp only [extractLoopK]
    rw [extractLoopB_mem, ih]
    rcases eq_or_ne type memoryIntensity with htype | htype
    · subst htype
      by_cases h : x < basicBlocks
      · simp [h, Finset.sum_range_succ]
        omega
      · simp [h]
    · simp [htype]

/-- Claim C2: for a counter array `info` laid out over
entries×basicBlocks×threadBlocks×threads slots, `extractResults` produces a
`basicBlockExecutionCountMap` whose value at each block index `b` is the sum
over all (threadBlock k, thread t) of the entry-0 slot of (b,t,k) under the
flattened index formula; exactly when the instrumentation type is
`memoryIntensity`, `memoryOperationsMap` at `b` is the corresponding sum of
entry-1 slots (and it is identically 0 for any other type); and both maps are
rebuilt fresh on every call, independent of the previous profile state. -/
theorem c2_extractResults_reduction
    (type entries basicBlocks threadBlocks threads : Nat)
    (info : Nat → Nat) (prev : KernelProfile) (b : Nat)
    (hE : 0 < entries) (hb : b < basicBlocks) :
    (extractResults type entries basicBlocks threadBlocks threads info
        prev).basicBlockExecutionCountMap b =
      (∑ k ∈ Finset.range threadBlocks, ∑ t ∈ Finset.range threads,
        info (counterIndex entries basicBlocks threads b 0 t k)) ∧
    (type = memoryIntensity →
      (extractResults type entries basicBlocks threadBlocks threads info
          prev).memoryOperationsMap b =
        ∑ k ∈ Finset.range threadBlocks, ∑ t ∈ Finset.range threads,
          info (counterIndex entries basicBlocks threads b 1 t k)) ∧
    (type ≠ memoryIntensity →
      ∀ x, (extractResults type entries basicBlocks threadBlocks threads info
        prev).memoryOperationsMap x = 0) ∧
    extractResults type entries basicBlocks threadBlocks threads info prev =
      extractResults type entries basicBlocks threadBlocks threads info
        emptyProfile := by
  refine ⟨?_, ?_, ?_, rfl⟩
  · simp only [extractResults]
    rw [extractLoopK_exec]
    simp only [emptyProfile, hb, hE.ne', if_true, if_false, ite_true,
      ite_false, eq_self_iff_true, Nat.zero_add]
    refine Finset.sum_congr rfl fun k _ => Finset.sum_congr rfl fun t _ => ?_
    simp [counterIndex]
  · intro htype
    simp only [extractResults]
    rw [extractLoopK_mem]
    simp only [emptyProfile, htype, hb, hE.ne', if_true, if_false, ite_true,
      ite_false, eq_self_iff_true, true_and, and_true, Nat.zero_add]
    refine Finset.sum_congr rfl fun k _ => Finset.sum_congr rfl fun t _ => ?_
    have h5 : counterIndex entries basicBlocks threads b 1 t k =
        b * entries * threads + k * basicBlocks * threads * entries
          + (t * entries + 1) := by
      unfold counterIndex; ring
    rw [h5]
  · intro htype x
    simp only [extractResults]
    rw [extractLoopK_mem]
    simp [emptyProfile, htype]

/-- Witness for C2 at the concrete geometry type=memoryIntensity, entries=2,
basicBlocks=1, threadBlocks=1, threads=1, info n = n, block b=0, with a junk
previous profile: all four conjuncts hold there. -/
theorem c2_witness :
    (extractResults memoryIntensity 2 1 1 1 (fun n => n)
        ⟨fun _ => 99, fun _ => 99⟩).basicBlockExecutionCountMap 0 =
      (∑ k ∈ Finset.range 1, ∑ t ∈ Finset.range 1,
        (fun n => n) (counterIndex 2 1 1 0 0 t k)) ∧
    (memoryIntensity = memoryIntensity →
      (extractResults memoryIntensity 2 1 1 1 (fun n => n)
          ⟨fun _ => 99, fun _ => 99⟩).memoryOperationsMap 0 =
        ∑ k ∈ Finset.range 1, ∑ t ∈ Finset.range 1,
          (fun n => n) (counterIndex 2 1 1 0 1 t k)) ∧
    (memoryIntensity ≠ memoryIntensity →
      ∀ x, (extractResults memoryIntensity 2 1 1 1 (fun n => n)
        ⟨fun _ => 99, fun _ => 99⟩).memoryOperationsMap x = 0) ∧
    extractResults memoryIntensity 2 1 1 1 (fun n => n)
        ⟨fun _ => 99, fun _ => 99⟩ =
      extractResults memoryIntensity 2 1 1 1 (fun n => n) emptyProfile :=
  c2_extractResults_reduction memoryIntensity 2 1 1 1 (fun n => n)
    ⟨fun _ => 99, fun _ => 99⟩ 0 (by decide) (by decide)

/-! ## Kernel analysis (BasicBlockInstrumentor.cpp, lines 36-58)

A module holds a name-keyed kernel map; each kernel exposes a dataflow-graph
size and a control-flow graph, which we model as the ordered list of its block
labels.  `module.kernels().find(name)` is modelled as an `Option`-returning
lookup; the C++ code dereferences the iterator unconditionally, so a failed
lookup (including the empty-name lookup done for the label walk when no
target kernel is set) is modelled as `none` propagating out of `analyze`. -/

structure IrKernel where
  name : String
  dfgSize : Nat
  cfg : List String
deriving DecidableEq, Repr

structure IrModule where
  kernels : List IrKernel
deriving DecidableEq, Repr

def findKernel (m : IrModule) (kernelName : String) : Option IrKernel :=
  m.kernels.find? (fun k => k.name == kernelName)

/-- BasicBlockInstrumentor::analyze (lines 36-58): `basicBlocks` is the named
kernel's dfg size minus 2 when `kernelName` is nonempty, else the sum of dfg
sizes over all kernels; then the label list is built by walking the looked-up
kernel's control-flow graph, skipping blocks labeled "entry" or "exit". -/
def analyze (m : IrModule) (kernelName : String) :
    Option (Nat × List String) := do
  let basicBlocks ←
    if kernelName = "" then
      pure (m.kernels.foldl (fun acc k => acc + k.dfgSize) 0)
    else do
      let k ← findKernel m kernelName
      pure (k.dfgSize - 2)
  let kernel ← findKernel m kernelName
  let labels := kernel.cfg.foldl
    (fun ls label =>
      if label == "entry" || label == "exit" then ls else ls ++ [label]) []
  pure (basicBlocks, labels)

theorem foldl_add_dfgSize (ks : List IrKernel) (acc : Nat) :
    ks.foldl (fun acc k => acc + k.dfgSize) acc =
      acc + (ks.map (fun k => k.dfgSize)).sum := by
  induction ks generalizing acc with
  | nil => simp
  | cons k ks ih => simp [List.foldl_cons, ih]; omega

theorem foldl_label_filter (labels : List String) (acc : List String) :
    labels.foldl
        (fun ls label =>
          if label == "entry" || label == "exit" then ls else ls ++ [label])
        acc =
      acc ++ labels.filter (fun label => !(label == "entry" || label == "exit")) := by
  induction labels generalizing acc with
  | nil => simp
  | cons l ls ih =>
    rw [List.foldl_cons, List.filter_cons]
    cases hb : (l == "entry" || l == "exit") with
    | true =>
      rw [if_pos rfl, if_neg (by simp)]
      exact ih acc
    | false =>
      rw [if_neg (by simp), if_pos (by simp)]
      rw [ih, List.append_assoc, List.singleton_append]

/-- Claim C7: when the kernel lookup (by the configured target kernel name)
succeeds, `analyze` computes `basicBlocks` as that kernel's graph size minus
the two synthetic boundary blocks when a target name is specified, and as the
sum of graph sizes over all kernels of the module when the target name is
empty; in both cases it builds the ordered label list of the looked-up kernel
by walking its control-flow graph in order and skipping exactly the blocks
labeled "entry" and "exit". -/
theorem c7_analyze_blocks_and_labels (m : IrModule) (kernelName : String)
    (kn : IrKernel) (hfind : findKernel m kernelName = some kn) :
    analyze m kernelName = some
      ((if kernelName = "" then (m.kernels.map (fun k => k.dfgSize)).sum
        else kn.dfgSize - 2),
       kn.cfg.filter (fun label => !(label == "entry" || label == "exit"))) := by
  rcases eq_or_ne kernelName "" with h | h
  · subst h
    simp only [analyze, if_pos rfl, hfind, foldl_add_dfgSize, Nat.zero_add,
      Option.pure_def, Option.bind_eq_bind, Option.some_bind]
    rw [foldl_label_filter]
    simp
  · simp only [analyze, if_neg h, hfind, Option.pure_def, Option.bind_eq_bind,
      Option.some_bind]
    rw [foldl_label_filter]
    simp [h]

/-- Witness for C7 on a one-kernel module whose kernel "k" has dfg size 5 and
cfg labels [entry, a, b, exit]: analyze returns basicBlocks = 3 and the label
list [a, b]. -/
theorem c7_witness :
    analyze ⟨[⟨"k", 5, ["entry", "a", "b", "exit"]⟩]⟩ "k" = some
      ((if "k" = "" then
          ((⟨[⟨"k", 5, ["entry", "a", "b", "exit"]⟩]⟩ :
            IrModule).kernels.map (fun k => k.dfgSize)).sum
        else (⟨"k", 5, ["entry", "a", "b", "exit"]⟩ : IrKernel).dfgSize - 2),
       (⟨"k", 5, ["entry", "a", "b", "exit"]⟩ : IrKernel).cfg.filter
         (fun label => !(label == "entry" || label == "exit"))) :=
  c7_analyze_blocks_and_labels ⟨[⟨"k", 5, ["entry", "a", "b", "exit"]⟩]⟩ "k"
    ⟨"k", 5, ["entry", "a", "b", "exit"]⟩ (by decide)

/-! ## Trace header (MemoryTraceGenerator.cpp, lines 40-143)

`Header` mirrors `trace::MemoryTraceGenerator::Header`; all counters are
PTXU64/PTXU32 values modelled as `Nat` (they are only ever incremented or
accumulated, never wrapped in any reachable behaviour modelled here).  The
`format` tag is omitted (it is a constant set once in the constructor).  The
constructor zero-fills every listed field and sets `headerOnly = false`;
`blockDimX/Y/Z` are left unset by the C++ constructor and are modelled as 0
until assigned. -/

inductive AddressSpace where
  | Const
  | Global
  | Local
  | Param
  | Shared
  | Texture
  | Generic
deriving DecidableEq, Repr

structure Header where
  thread_count : Nat
  blockDimX : Nat
  blockDimY : Nat
  blockDimZ : Nat
  dynamic_instructions : Nat
  dynamic_operations : Nat
  const_accesses : Nat
  global_accesses : Nat
  local_accesses : Nat
  param_accesses : Nat
  shared_accesses : Nat
  texture_accesses : Nat
  global_min_address : Nat
  global_max_address : Nat
  global_instructions : Nat
  texture_instructions : Nat
  global_bytes : Nat
  shared_bytes : Nat
  texture_bytes : Nat
  global_words : Nat
  texture_words : Nat
  global_extent : Nat
  global_segments : Nat
  halfwarps : Nat
  headerOnly : Bool
deriving DecidableEq, Repr

/-- Header::Header() (lines 40-73): zero-fills the statistics and clears the
header-only flag. -/
def initHeader : Header :=
  ⟨0, 0, 0, 0, 0, 0, 0, 0, 0, 0, 0, 0, 0, 0, 0, 0, 0, 0, 0, 0, 0, 0, 0, 0,
   false⟩

/-- Header::access (lines 79-102). -/
def Header.access (h : Header) (space : AddressSpace) (bytes : Nat) : Header :=
  match space with
  | AddressSpace.Const => { h with const_accesses := h.const_accesses + 1 }
  | AddressSpace.Global =>
    { h with global_accesses := h.global_accesses + 1,
             global_bytes := h.global_bytes + bytes,
             global_instructions := h.global_instructions + 1 }
  | AddressSpace.Local => { h with local_accesses := h.local_accesses + 1 }
  | AddressSpace.Param => { h with param_accesses := h.param_accesses + 1 }
  | AddressSpace.Shared =>
    { h with shared_accesses := h.shared_accesses + 1,
             shared_bytes := h.shared_bytes + bytes }
  | AddressSpace.Texture =>
    { h with texture_accesses := h.texture_accesses + 1,
             texture_bytes := h.texture_bytes + bytes,
             texture_instructions := h.texture_instructions + 1 }
  | AddressSpace.Generic => h

/-- Header::address (lines 104-143): Global and Texture update the shared
min/max extrema (a zero extremum counts as unset) and bump their word
counter; Const/Local/Param/Shared and the default case are no-ops. -/
def Header.address (h : Header) (space : AddressSpace) (addr : Nat) : Header :=
  match space with
  | AddressSpace.Const => h
  | AddressSpace.Texture =>
    let mn := if h.global_min_address = 0 ∨ addr < h.global_min_address
      then addr else h.global_min_address
    let mx := if h.global_max_address = 0 ∨ h.global_max_address < addr
      then addr else h.global_max_address
    { h with global_min_address := mn, global_max_address := mx,
             texture_words := h.texture_words + 1 }
  | AddressSpace.Global =>
    let mn := if h.global_min_address = 0 ∨ addr < h.global_min_address
      then addr else h.global_min_address
    let mx := if h.global_max_address = 0 ∨ h.global_max_address < addr
      then addr else h.global_max_address
    { h with global_min_address := mn, global_max_address := mx,
             global_words := h.global_words + 1 }
  | AddressSpace.Local => h
  | AddressSpace.Param => h
  | AddressSpace.Shared => h
  | AddressSpace.Generic => h

/-- Feeding a list of addresses of one space through Header::address. -/
def feedAddresses (space : AddressSpace) (h : Header) (addrs : List Nat) :
    Header :=
  addrs.foldl (fun h a => h.address space a) h

/-- Claim C8's reading of the extremum update ("zero sentinel until the first
non-zero address is observed, thereafter standard min/max"): the minimum of
all addresses from the first nonzero one onwards, 0 if none. -/
def claimedMinAddress (addrs : List Nat) : Nat :=
  match addrs.dropWhile (fun a => a == 0) with
  | [] => 0
  | a :: rest => rest.foldl Nat.min a

/-- Word-counter selector for the two traced spaces. -/
def wordsOf (space : AddressSpace) (h : Header) : Nat :=
  match space with
  | AddressSpace.Global => h.global_words
  | AddressSpace.Texture => h.texture_words
  | _ => 0

theorem address_min_eq (h : Header) (space : AddressSpace) (addr : Nat)
    (hs : space = AddressSpace.Global ∨ space = AddressSpace.Texture) :
    (h.address space addr).global_min_address =
      if h.global_min_address = 0 ∨ addr < h.global_min_address then addr
      else h.global_min_address := by
  rcases hs with rfl | rfl <;> rfl

theorem address_max_eq (h : Header) (space : AddressSpace) (addr : Nat)
    (hs : space = AddressSpace.Global ∨ space = AddressSpace.Texture) :
    (h.address space addr).global_max_address =
      if h.global_max_address = 0 ∨ h.global_max_address < addr then addr
      else h.global_max_address := by
  rcases hs with rfl | rfl <;> rfl

theorem address_words_eq (h : Header) (space : AddressSpace) (addr : Nat)
    (hs : space = AddressSpace.Global ∨ space = AddressSpace.Texture) :
    wordsOf space (h.address space addr) = wordsOf space h + 1 := by
  rcases hs with rfl | rfl <;> rfl

theorem feed_zeros (space : AddressSpace) (zs : List Nat) (h : Header)
    (hs : space = AddressSpace.Global ∨ space = AddressSpace.Texture)
    (hz : ∀ a ∈ zs, a = 0)
    (hmin : h.global_min_address = 0) (hmax : h.global_max_address = 0) :
    (feedAddresses space h zs).global_min_address = 0 ∧
    (feedAddresses space h zs).global_max_address = 0 ∧
    wordsOf space (feedAddresses space h zs) = wordsOf space h + zs.length := by
  induction zs generalizing h with
  | nil => simp [feedAddresses, hmin, hmax]
  | cons a zs ih =>
    have ha : a = 0 := hz a (List.mem_cons_self a zs)
    subst ha
    have hz2 : ∀ a ∈ zs, a = 0 := fun a ha => hz a (List.mem_cons_of_mem _ ha)
    have hmin2 : (h.address space 0).global_min_address = 0 := by
      rw [address_min_eq h space 0 hs]
      simp [hmin]
    have hmax2 : (h.address space 0).global_max_address = 0 := by
      rw [address_max_eq h space 0 hs]
      simp [hmax]
    have step := ih (h.address space 0) hz2 hmin2 hmax2
    refine ⟨step.1, step.2.1, ?_⟩
    have : feedAddresses space h (0 :: zs) =
        feedAddresses space (h.address space 0) zs := rfl
    rw [this, step.2.2, address_words_eq h space 0 hs]
    simp [Nat.add_assoc, Nat.add_comm 1 zs.length]

theorem feed_pos_min (space : AddressSpace) (ps : List Nat) (h : Header)
    (hs : space = AddressSpace.Global ∨ space = AddressSpace.Texture)
    (hp : ∀ a ∈ ps, 0 < a) (hmin : 0 < h.global_min_address) :
    (feedAddresses space h ps).global_min_address =
      ps.foldl min h.global_min_address := by
  induction ps generalizing h with
  | nil => simp [feedAddresses]
  | cons a ps ih =>
    have ha : 0 < a := hp a (List.mem_cons_self a ps)
    have hp2 : ∀ x ∈ ps, 0 < x := fun x hx => hp x (List.mem_cons_of_mem _ hx)
    have hstep : (h.address space a).global_min_address =
        min h.global_min_address a := by
      rw [address_min_eq h space a hs, min_def]
      split_ifs <;> omega
    have hmin2 : 0 < (h.address space a).global_min_address := by
      rw [hstep, min_def]
      split_ifs <;> omega
    have : feedAddresses space h (a :: ps) =
        feedAddresses space (h.address space a) ps := rfl
    rw [this, ih (h.address space a) hp2 hmin2, hstep, List.foldl_cons]

theorem feed_max (space : AddressSpace) (l : List Nat) (h : Header)
    (hs : space = AddressSpace.Global ∨ space = AddressSpace.Texture) :
    (feedAddresses space h l).global_max_address =
      l.foldl max h.global_max_address := by
  induction l generalizing h with
  | nil => simp [feedAddresses]
  | cons a l ih =>
    have hstep : (h.address space a).global_max_address =
        max h.global_max_address a := by
      rw [address_max_eq h space a hs, max_def]
      split_ifs <;> omega
    have : feedAddresses space h (a :: l) =
        feedAddresses space (h.address space a) l := rfl
    rw [this, ih (h.address space a), hstep, List.foldl_cons]

theorem feed_words (space : AddressSpace) (l : List Nat) (h : Header)
    (hs : space = AddressSpace.Global ∨ space = AddressSpace.Texture) :
    wordsOf space (feedAddresses space h l) = wordsOf space h + l.length := by
  induction l generalizing h with
  | nil => simp [feedAddresses]
  | cons a l ih =>
    have : feedAddresses space h (a :: l) =
        feedAddresses space (h.address space a) l := rfl
    rw [this, ih (h.address space a), address_words_eq h space a hs]
    simp [Nat.add_assoc, Nat.add_comm 1 l.length]

theorem feed_append (space : AddressSpace) (h : Header) (l1 l2 : List Nat) :
    feedAddresses space h (l1 ++ l2) =
      feedAddresses space (feedAddresses space h l1) l2 :=
  List.foldl_append _ _ _ _

/-- Counterexample to claim C8: the claim says that after the first nonzero
address is observed the extrema follow standard min/max and are never reset;
feeding the Global-space addresses [100, 0, 50] into a fresh header would
then give minimum 0 (the running minimum once 100 has been seen), but the
code's zero-as-unset test makes the zero address reset
`global_min_address` to the sentinel and the final value is 50. -/
theorem c8_counterexample :
    (feedAddresses AddressSpace.Global initHeader
        [100, 0, 50]).global_min_address ≠
      claimedMinAddress [100, 0, 50] := by decide

/-- Claim C8 (amended): for an address stream consisting of zeros followed by
nonzero addresses fed to the Global or Texture space of a header with unset
extrema, the extrema stay at the zero sentinel through the zero prefix, the
final minimum/maximum are the standard min/max of the nonzero addresses, the
corresponding word counter is incremented once per call, and
Const/Local/Param/Shared calls leave the header unchanged.  (The original
claim's "thereafter applies standard min/max without ever resetting" fails
when a zero address follows a nonzero one: such a call resets the minimum to
the sentinel, see the counterexample.) -/
theorem c8_address_extrema_amended (space : AddressSpace)
    (zs ps : List Nat) (h : Header)
    (hs : space = AddressSpace.Global ∨ space = AddressSpace.Texture)
    (hz : ∀ a ∈ zs, a = 0) (hp : ∀ a ∈ ps, 0 < a)
    (hmin : h.global_min_address = 0) (hmax : h.global_max_address = 0) :
    (feedAddresses space h zs).global_min_address = 0 ∧
    (feedAddresses space h zs).global_max_address = 0 ∧
    (feedAddresses space h (zs ++ ps)).global_min_address =
      (match ps with
       | [] => 0
       | a :: rest => rest.foldl min a) ∧
    (feedAddresses space h (zs ++ ps)).global_max_address =
      ps.foldl max 0 ∧
    wordsOf space (feedAddresses space h (zs ++ ps)) =
      wordsOf space h + (zs ++ ps).length ∧
    (∀ (h2 : Header) (a : Nat),
      h2.address AddressSpace.Const a = h2 ∧
      h2.address AddressSpace.Local a = h2 ∧
      h2.address AddressSpace.Param a = h2 ∧
      h2.address AddressSpace.Shared a = h2) := by
  obtain ⟨hz_min, hz_max, _⟩ := feed_zeros space zs h hs hz hmin hmax
  refine ⟨hz_min, hz_max, ?_, ?_, ?_, ?_⟩
  · rw [feed_append]
    cases ps with
    | nil => simpa [feedAddresses] using hz_min
    | cons a rest =>
      have ha : 0 < a := hp a (List.mem_cons_self a rest)
      have hrest : ∀ x ∈ rest, 0 < x :=
        fun x hx => hp x (List.mem_cons_of_mem _ hx)
      have hstep : ((feedAddresses space h zs).address space
          a).global_min_address = a := by
        rw [address_min_eq _ space a hs, if_pos (Or.inl hz_min)]
      have : feedAddresses space (feedAddresses space h zs) (a :: rest) =
          feedAddresses space
            ((feedAddresses space h zs).address space a) rest := rfl
      rw [this, feed_pos_min space rest _ hs hrest (by rw [hstep]; omega),
        hstep]
  · rw [feed_append, feed_max space ps _ hs, hz_max]
  · rw [feed_words space (zs ++ ps) h hs]
  · intro h2 a
    exact ⟨rfl, rfl, rfl, rfl⟩

/-- Witness for C8 (amended) at the spec's concrete example: feeding
[100, 50, 200] to the Global space of a fresh header yields minimum 50,
maximum 200, and 3 global words. -/
theorem c8_witness :
    (feedAddresses AddressSpace.Global initHeader
        [100, 50, 200]).global_min_address = 50 ∧
    (feedAddresses AddressSpace.Global initHeader
        [100, 50, 200]).global_max_address = 200 ∧
    (feedAddresses AddressSpace.Global initHeader
        [100, 50, 200]).global_words = 3 := by
  have h := c8_address_extrema_amended AddressSpace.Global [] [100, 50, 200]
    initHeader (Or.inl rfl) (by simp) (by decide) rfl rfl
  refine ⟨?_, ?_, ?_⟩
  · have := h.2.2.1
    simpa using this
  · have := h.2.2.2.1
    simpa using this
  · have := h.2.2.2.2.1
    simpa [wordsOf, initHeader] using this

/-! ## Trace events (MemoryTraceGenerator.cpp, lines 146-151, 237-455)

`TraceEvent` models the emulator's event record consumed by
`MemoryTraceGenerator::event`; `Event`/`Access` model the serialized trace
records.  The active mask is a list of lane flags (size = thread count);
`dynamic_operations` adds its population count.  The generator state gathers
the members touched by `event`/`finish`: the open/closed trace stream
(`fileOpen`, C++ `_file != 0`), the running header, the current `_event`, the
sequence of events serialized to the open stream (`archive`), the session
entry, and the externally visible effects of `finish` (database registrations
and written header artifacts). -/

inductive Opcode where
  | Ld
  | St
  | Tex
  | OtherOp
deriving DecidableEq, Repr

structure Access where
  address : Nat
  size : Nat
  threadID : Nat
deriving DecidableEq, Repr

structure Event where
  PC : Nat
  opcode : Opcode
  addressSpace : AddressSpace
  ctaX : Nat
  ctaY : Nat
  ctaZ : Nat
  accesses : List Access
deriving DecidableEq, Repr

structure TraceEvent where
  PC : Nat
  opcode : Opcode
  addressSpace : AddressSpace
  ctaX : Nat
  ctaY : Nat
  ctaZ : Nat
  active : List Bool
  memory_addresses : List Nat
  memory_sizes : List Nat
deriving DecidableEq, Repr

structure TraceEntry where
  name : String
  module : String
  path : String
  header : String
deriving DecidableEq, Repr

structure GeneratorState where
  fileOpen : Bool
  header : Header
  curEvent : Event
  archive : List Event
  entry : TraceEntry
  db : List TraceEntry
  headerFiles : List (String × Header)
deriving DecidableEq, Repr

/-- Fuel-indexed version of the active-lane scan
`for (; threadID < thread_count && !event.active[threadID]; threadID++) {}`
(lines 337-338, 394-395); the fuel `threadCount - tid` suffices because each
step increments `tid` and the scan stops at `threadCount`. -/
def scanActiveGo (active : List Bool) (threadCount : Nat) :
    Nat → Nat → Nat
  | 0, tid => tid
  | fuel + 1, tid =>
    if tid < threadCount ∧ active.getD tid false = false then
      scanActiveGo active threadCount fuel (tid + 1)
    else tid

def scanActive (active : List Bool) (threadCount tid : Nat) : Nat :=
  scanActiveGo active threadCount (threadCount - tid) tid

/-- The Ld/St lane walk (lines 331-362): one iteration per
(address, size) pair, returning the updated header, the updated event record
and the accumulated byte count.  `sa` is `starting_address` (initially the
PTXU64 value -1 = 2^64-1); the next-expected address is stored modulo 2^64. -/
def ldstLoop (headerOnly : Bool) (active : List Bool)
    (threadCount halfwarpSize : Nat) (space : AddressSpace)
    (pairs : List (Nat × Nat)) (tid sa bytes : Nat)
    (hdr : Header) (ev : Event) : Header × Event × Nat :=
  match pairs with
  | [] => (hdr, ev, bytes)
  | (addr, sz) :: rest =>
    let tid1 := if headerOnly then tid else scanActive active threadCount tid
    let ev1 := if headerOnly then ev else
      { ev with accesses := ev.accesses ++ [⟨addr, sz, tid1⟩] }
    let hdr1 := hdr.address space addr
    let bytes1 := bytes + sz
    if halfwarpSize < tid1 then
      ldstLoop headerOnly active threadCount halfwarpSize space rest
        (tid1 + 1) ((addr + sz) % 2 ^ 64) bytes1
        { hdr1 with global_segments := hdr1.global_segments + 1,
                    halfwarps := hdr1.halfwarps + 1 } ev1
    else if sa ≠ addr then
      ldstLoop headerOnly active threadCount halfwarpSize space rest
        (tid1 + 1) ((addr + sz) % 2 ^ 64) bytes1
        { hdr1 with global_segments := hdr1.global_segments + 1 } ev1
    else
      ldstLoop headerOnly active threadCount halfwarpSize space rest
        (tid1 + 1) sa bytes1 hdr1 ev1

/-- The Tex lane walk (lines 388-421): four identical Access records per
active lane, address space forced to Texture. -/
def texLoop (headerOnly : Bool) (active : List Bool)
    (threadCount halfwarpSize : Nat)
    (pairs : List (Nat × Nat)) (tid sa bytes : Nat)
    (hdr : Header) (ev : Event) : Header × Event × Nat :=
  match pairs with
  | [] => (hdr, ev, bytes)
  | (addr, sz) :: rest =>
    let tid1 := if headerOnly then tid else scanActive active threadCount tid
    let ev1 := if headerOnly then ev else
      { ev with accesses := ev.accesses ++ List.replicate 4 ⟨addr, sz, tid1⟩ }
    let bytes1 := bytes + sz
    let hdr1 := hdr.address AddressSpace.Texture addr
    if halfwarpSize < tid1 then
      texLoop headerOnly active threadCount halfwarpSize rest
        (tid1 + 1) ((addr + sz) % 2 ^ 64) bytes1
        { hdr1 with global_segments := hdr1.global_segments + 1,
                    halfwarps := hdr1.halfwarps + 1 } ev1
    else if sa ≠ addr then
      texLoop headerOnly active threadCount halfwarpSize rest
        (tid1 + 1) ((addr + sz) % 2 ^ 64) bytes1
        { hdr1 with global_segments := hdr1.global_segments + 1 } ev1
    else
      texLoop headerOnly active threadCount halfwarpSize rest
        (tid1 + 1) sa bytes1 hdr1 ev1

/-- MemoryTraceGenerator::event (lines 305-430).  `headerOnly` is the
generator's flag; every call bumps the dynamic instruction counter and adds
the active-mask population count before dispatching on the opcode. -/
def eventStep (headerOnly : Bool) (s : GeneratorState) (e : TraceEvent) :
    GeneratorState :=
  let hdr0 := { s.header with
    dynamic_instructions := s.header.dynamic_instructions + 1,
    dynamic_operations := s.header.dynamic_operations + e.active.count true }
  match e.opcode with
  | Opcode.Ld | Opcode.St =>
    let ev0 := if headerOnly then s.curEvent else
      { PC := e.PC, opcode := e.opcode, addressSpace := e.addressSpace,
        ctaX := e.ctaX, ctaY := e.ctaY, ctaZ := e.ctaZ, accesses := [] }
    let halfwarpSize := hdr0.thread_count / 2
    let r := ldstLoop headerOnly e.active hdr0.thread_count halfwarpSize
      e.addressSpace (e.memory_addresses.zip e.memory_sizes) 0
      (2 ^ 64 - 1) 0 hdr0 ev0
    let hdr1 := r.1.access e.addressSpace r.2.2
    { s with header := hdr1, curEvent := r.2.1,
             archive := if headerOnly then s.archive
               else s.archive ++ [r.2.1] }
  | Opcode.Tex =>
    let ev0 := if headerOnly then s.curEvent else
      { PC := e.PC, opcode := e.opcode,
        addressSpace := AddressSpace.Texture,
        ctaX := e.ctaX, ctaY := e.ctaY, ctaZ := e.ctaZ, accesses := [] }
    let halfwarpSize := hdr0.thread_count / 2
    let r := texLoop headerOnly e.active hdr0.thread_count halfwarpSize
      (e.memory_addresses.zip e.memory_sizes) 0 (2 ^ 64 - 1) 0 hdr0 ev0
    let hdr1 := r.1.access AddressSpace.Texture r.2.2
    { s with header := hdr1, curEvent := r.2.1,
             archive := if headerOnly then s.archive
               else s.archive ++ [r.2.1] }
  | Opcode.OtherOp => { s with header := hdr0 }

def runEvents (headerOnly : Bool) (s : GeneratorState)
    (evts : List TraceEvent) : GeneratorState :=
  evts.foldl (eventStep headerOnly) s

/-- MemoryTraceGenerator::finish (lines 432-455): guarded by the open trace
stream; when open, registers the entry into the trace database, closes the
stream, and writes the header artifact.  (The environment is modelled as
always succeeding to open the header artifact, so the header write happens
whenever the guard passes.) -/
def finish (s : GeneratorState) : GeneratorState :=
  if s.fileOpen then
    { s with db := s.db ++ [s.entry],
             fileOpen := false,
             headerFiles := s.headerFiles ++ [(s.entry.header, s.header)] }
  else s

/-- Claim C9: after a `finish` that completed, the trace stream is closed,
and calling `finish` again is a no-op: it changes no generator state, writes
no header artifact, and performs no database registration. -/
theorem c9_finish_twice (s : GeneratorState) :
    finish (finish s) = finish s ∧ (finish s).fileOpen = false := by
  by_cases h : s.fileOpen <;> simp [finish, h]

theorem address_pres (h : Header) (space : AddressSpace) (a : Nat) :
    (h.address space a).dynamic_instructions = h.dynamic_instructions ∧
    (h.address space a).dynamic_operations = h.dynamic_operations ∧
    (h.address space a).thread_count = h.thread_count ∧
    (h.address space a).global_segments = h.global_segments ∧
    (h.address space a).halfwarps = h.halfwarps := by
  cases space <;> exact ⟨rfl, rfl, rfl, rfl, rfl⟩

theorem access_pres (h : Header) (space : AddressSpace) (bytes : Nat) :
    (h.access space bytes).dynamic_instructions = h.dynamic_instructions ∧
    (h.access space bytes).dynamic_operations = h.dynamic_operations ∧
    (h.access space bytes).thread_count = h.thread_count ∧
    (h.access space bytes).global_segments = h.global_segments ∧
    (h.access space bytes).halfwarps = h.halfwarps := by
  cases space <;> exact ⟨rfl, rfl, rfl, rfl, rfl⟩

theorem ldstLoop_pres (ho : Bool) (active : List Bool) (tc hw : Nat)
    (sp : AddressSpace) (pairs : List (Nat × Nat)) :
    ∀ tid sa bytes hdr ev,
      ((ldstLoop ho active tc hw sp pairs tid sa bytes hdr
          ev).1.dynamic_instructions = hdr.dynamic_instructions) ∧
      ((ldstLoop ho active tc hw sp pairs tid sa bytes hdr
          ev).1.dynamic_operations = hdr.dynamic_operations) ∧
      ((ldstLoop ho active tc hw sp pairs tid sa bytes hdr
          ev).1.thread_count = hdr.thread_count) := by
  induction pairs with
  | nil => exact fun tid sa bytes hdr ev => ⟨rfl, rfl, rfl⟩
  | cons p rest ih =>
    intro tid sa bytes hdr ev
    obtain ⟨addr, sz⟩ := p
    simp only [ldstLoop]
    have hp := address_pres hdr sp addr
    split_ifs <;>
      exact ⟨by rw [(ih _ _ _ _ _).1]; exact hp.1,
        by rw [(ih _ _ _ _ _).2.1]; exact hp.2.1,
        by rw [(ih _ _ _ _ _).2.2]; exact hp.2.2.1⟩

theorem texLoop_pres (ho : Bool) (active : List Bool) (tc hw : Nat)
    (pairs : List (Nat × Nat)) :
    ∀ tid sa bytes hdr ev,
      ((texLoop ho active tc hw pairs tid sa bytes hdr
          ev).1.dynamic_instructions = hdr.dynamic_instructions) ∧
      ((texLoop ho active tc hw pairs tid sa bytes hdr
          ev).1.dynamic_operations = hdr.dynamic_operations) ∧
      ((texLoop ho active tc hw pairs tid sa bytes hdr
          ev).1.thread_count = hdr.thread_count) := by
  induction pairs with
  | nil => exact fun tid sa bytes hdr ev => ⟨rfl, rfl, rfl⟩
  | cons p rest ih =>
    intro tid sa bytes hdr ev
    obtain ⟨addr, sz⟩ := p
    simp only [texLoop]
    have hp := address_pres hdr AddressSpace.Texture addr
    split_ifs <;>
      exact ⟨by rw [(ih _ _ _ _ _).1]; exact hp.1,
        by rw [(ih _ _ _ _ _).2.1]; exact hp.2.1,
        by rw [(ih _ _ _ _ _).2.2]; exact hp.2.2.1⟩

/-- Claim C10: every call to `event` — for any opcode, including
instructions that are neither loads, stores nor texture fetches and produce
no Access records — increments `dynamic_instructions` by exactly 1 and
increases `dynamic_operations` by exactly the population count of the
event's active mask, regardless of the header-only flag. -/
theorem c10_event_dynamic_counters (ho : Bool) (s : GeneratorState)
    (e : TraceEvent) :
    (eventStep ho s e).header.dynamic_instructions =
      s.header.dynamic_instructions + 1 ∧
    (eventStep ho s e).header.dynamic_operations =
      s.header.dynamic_operations + e.active.count true := by
  cases hop : e.opcode
  case Ld =>
    simp only [eventStep, hop]
    constructor
    · rw [(access_pres _ _ _).1, (ldstLoop_pres _ _ _ _ _ _ _ _ _ _ _).1]
    · rw [(access_pres _ _ _).2.1, (ldstLoop_pres _ _ _ _ _ _ _ _ _ _ _).2.1]
  case St =>
    simp only [eventStep, hop]
    constructor
    · rw [(access_pres _ _ _).1, (ldstLoop_pres _ _ _ _ _ _ _ _ _ _ _).1]
    · rw [(access_pres _ _ _).2.1, (ldstLoop_pres _ _ _ _ _ _ _ _ _ _ _).2.1]
  case Tex =>
    simp only [eventStep, hop]
    constructor
    · rw [(access_pres _ _ _).1, (texLoop_pres _ _ _ _ _ _ _ _ _ _).1]
    · rw [(access_pres _ _ _).2.1, (texLoop_pres _ _ _ _ _ _ _ _ _ _).2.1]
  case OtherOp =>
    simp [eventStep, hop]

theorem scanActive_id (active : List Bool) (tc tid : Nat)
    (h : active.getD tid false = true ∨ tc ≤ tid) :
    scanActive active tc tid = tid := by
  unfold scanActive
  cases hf : tc - tid with
  | zero => rfl
  | succ n =>
    have hcon : ¬ (tid < tc ∧ active.getD tid false = false) := by
      rintro ⟨h1, h2⟩
      rcases h with h | h
      · rw [h] at h2
        cases h2
      · omega
    simp only [scanActiveGo, if_neg hcon]

/-- The coalescing-segment count of one instruction's walk, stated as claim
C4's rule amended to the code's update policy: a segment is counted when the
lane position exceeds the half-warp size or the current address differs from
the expected address, and the expected address is updated (to address + size
modulo 2^64) only when a segment is counted.  The second component counts the
half-warp-branch segments. -/
def segmentWalk (halfwarpSize : Nat) :
    List (Nat × Nat) → Nat → Nat → Nat × Nat
  | [], _, _ => (0, 0)
  | (addr, sz) :: rest, tid, sa =>
    if halfwarpSize < tid then
      let r := segmentWalk halfwarpSize rest (tid + 1) ((addr + sz) % 2 ^ 64)
      (r.1 + 1, r.2 + 1)
    else if sa ≠ addr then
      let r := segmentWalk halfwarpSize rest (tid + 1) ((addr + sz) % 2 ^ 64)
      (r.1 + 1, r.2)
    else
      segmentWalk halfwarpSize rest (tid + 1) sa

theorem ldstLoop_segments (ho : Bool) (active : List Bool) (tc hw : Nat)
    (sp : AddressSpace) (pairs : List (Nat × Nat)) :
    ∀ tid sa bytes hdr ev,
      (∀ i, tid ≤ i → i < tid + pairs.length →
        (active.getD i false = true ∨ tc ≤ i)) →
      ((ldstLoop ho active tc hw sp pairs tid sa bytes hdr
          ev).1.global_segments =
        hdr.global_segments + (segmentWalk hw pairs tid sa).1) ∧
      ((ldstLoop ho active tc hw sp pairs tid sa bytes hdr ev).1.halfwarps =
        hdr.halfwarps + (segmentWalk hw pairs tid sa).2) := by
  induction pairs with
  | nil =>
    intro tid sa bytes hdr ev hmask
    simp [ldstLoop, segmentWalk]
  | cons p rest ih =>
    intro tid sa bytes hdr ev hmask
    obtain ⟨addr, sz⟩ := p
    have hscan : scanActive active tc tid = tid :=
      scanActive_id active tc tid
        (hmask tid le_rfl (by simp only [List.length_cons]; omega))
    have hmask2 : ∀ i, tid + 1 ≤ i → i < (tid + 1) + rest.length →
        (active.getD i false = true ∨ tc ≤ i) := by
      intro i hi1 hi2
      exact hmask i (by omega) (by simp only [List.length_cons]; omega)
    have hp := address_pres hdr sp addr
    simp only [ldstLoop]
    rw [hscan, ite_self]
    generalize (if ho = true then ev
      else { ev with accesses := ev.accesses ++ [⟨addr, sz, tid⟩] } :
        Event) = ev1
    split_ifs with h1 h2
    · obtain ⟨s1, s2⟩ :=
        ih (tid + 1) ((addr + sz) % 2 ^ 64) (bytes + sz) _ ev1 hmask2
      constructor
      · rw [s1]
        simp only [segmentWalk, if_pos h1]
        have hseg := hp.2.2.2.1
        omega
      · rw [s2]
        simp only [segmentWalk, if_pos h1]
        have hhw := hp.2.2.2.2
        omega
    · obtain ⟨s1, s2⟩ :=
        ih (tid + 1) ((addr + sz) % 2 ^ 64) (bytes + sz) _ ev1 hmask2
      constructor
      · rw [s1]
        simp only [segmentWalk, if_neg h1, if_pos h2]
        have hseg := hp.2.2.2.1
        omega
      · rw [s2]
        simp only [segmentWalk, if_neg h1, if_pos h2]
        have hhw := hp.2.2.2.2
        omega
    · obtain ⟨s1, s2⟩ := ih (tid + 1) sa (bytes + sz) _ ev1 hmask2
      constructor
      · rw [s1]
        simp only [segmentWalk, if_neg h1, if_neg h2]
        have hseg := hp.2.2.2.1
        omega
      · rw [s2]
        simp only [segmentWalk, if_neg h1, if_neg h2]
        have hhw := hp.2.2.2.2
        omega

def emptyEvent : Event :=
  ⟨0, Opcode.OtherOp, AddressSpace.Generic, 0, 0, 0, []⟩

/-- A freshly initialized generator session with thread count 8 (the claim
C4 scenario: half-warp size 4). -/
def sampleState8 : GeneratorState :=
  { fileOpen := true,
    header := { initHeader with thread_count := 8 },
    curEvent := emptyEvent,
    archive := [],
    entry := ⟨"kernel", "module", "kernel_0.trace", "kernel_0.header"⟩,
    db := [],
    headerFiles := [] }

/-- A load instruction touching the contiguous addresses [0, 4, 8, 12] with
size 4 from all of 8 active lanes. -/
def c4Event : TraceEvent :=
  { PC := 0, opcode := Opcode.Ld, addressSpace := AddressSpace.Global,
    ctaX := 0, ctaY := 0, ctaZ := 0,
    active := [true, true, true, true, true, true, true, true],
    memory_addresses := [0, 4, 8, 12],
    memory_sizes := [4, 4, 4, 4] }

/-- Counterexample to claim C4: the claim says lane addresses [0, 4, 8, 12]
with size 4 each and thread count 8 produce exactly one global_segments
increment.  The code updates `starting_address` only when a segment is
counted (not when the address matches), so the walk counts a segment at
address 0 and again at address 8: the result is 2, not 1. -/
theorem c4_counterexample :
    ¬ ((eventStep false sampleState8 c4Event).header.global_segments = 1) := by
  decide

/-- Claim C4 (amended): for one traced load/store instruction whose active
lanes cover every walked position, the walk counts a new segment exactly when
the lane position exceeds half the thread count (incrementing both
global_segments and halfwarps) or when the current address differs from the
expected address, where the expected address is updated (to address + size)
only when a segment is counted; in particular lane addresses [0, 4, 8, 12]
with size 4 each and thread count 8 produce exactly two global_segments
increments and zero halfwarps increments, and [0, 4, 100, 104] also produce
exactly two. -/
theorem c4_segments_amended (ho : Bool) (s : GeneratorState) (e : TraceEvent)
    (hop : e.opcode = Opcode.Ld ∨ e.opcode = Opcode.St)
    (hmask : ∀ i, i < (e.memory_addresses.zip e.memory_sizes).length →
      (e.active.getD i false = true ∨ s.header.thread_count ≤ i)) :
    ((eventStep ho s e).header.global_segments =
      s.header.global_segments +
        (segmentWalk (s.header.thread_count / 2)
          (e.memory_addresses.zip e.memory_sizes) 0 (2 ^ 64 - 1)).1) ∧
    ((eventStep ho s e).header.halfwarps =
      s.header.halfwarps +
        (segmentWalk (s.header.thread_count / 2)
          (e.memory_addresses.zip e.memory_sizes) 0 (2 ^ 64 - 1)).2) ∧
    segmentWalk 4 [(0, 4), (4, 4), (8, 4), (12, 4)] 0 (2 ^ 64 - 1) =
      (2, 0) ∧
    segmentWalk 4 [(0, 4), (4, 4), (100, 4), (104, 4)] 0 (2 ^ 64 - 1) =
      (2, 0) := by
  have hmask0 : ∀ i, 0 ≤ i →
      i < 0 + (e.memory_addresses.zip e.memory_sizes).length →
      (e.active.getD i false = true ∨ s.header.thread_count ≤ i) := by
    intro i _ hi
    exact hmask i (by omega)
  refine ⟨?_, ?_, by decide, by decide⟩
  · rcases hop with hop | hop <;>
    · simp only [eventStep, hop]
      rw [(access_pres _ _ _).2.2.2.1,
        (ldstLoop_segments _ _ _ _ _ _ _ _ _ _ _ hmask0).1]
  · rcases hop with hop | hop <;>
    · simp only [eventStep, hop]
      rw [(access_pres _ _ _).2.2.2.2,
        (ldstLoop_segments _ _ _ _ _ _ _ _ _ _ _ hmask0).2]

/-- Witness for C4 (amended) at the concrete [0,4,8,12] load with all lanes
active: the two segment increments predicted by the amended rule are exactly
what the event walk produces (and zero halfwarps increments). -/
theorem c4_witness :
    ((eventStep false sampleState8 c4Event).header.global_segments =
      sampleState8.header.global_segments +
        (segmentWalk (sampleState8.header.thread_count / 2)
          (c4Event.memory_addresses.zip c4Event.memory_sizes) 0
          (2 ^ 64 - 1)).1) ∧
    ((eventStep false sampleState8 c4Event).header.halfwarps =
      sampleState8.header.halfwarps +
        (segmentWalk (sampleState8.header.thread_count / 2)
          (c4Event.memory_addresses.zip c4Event.memory_sizes) 0
          (2 ^ 64 - 1)).2) ∧
    segmentWalk 4 [(0, 4), (4, 4), (8, 4), (12, 4)] 0 (2 ^ 64 - 1) =
      (2, 0) ∧
    segmentWalk 4 [(0, 4), (4, 4), (100, 4), (104, 4)] 0 (2 ^ 64 - 1) =
      (2, 0) :=
  c4_segments_amended false sampleState8 c4Event (Or.inl rfl) (by decide)

theorem ldstLoop_headers_eq (active : List Bool) (tc hw : Nat)
    (sp : AddressSpace) (pairs : List (Nat × Nat)) :
    ∀ tid sa bytes hdr ev ev',
      (∀ i, tid ≤ i → i < tid + pairs.length →
        (active.getD i false = true ∨ tc ≤ i)) →
      ((ldstLoop true active tc hw sp pairs tid sa bytes hdr ev).1 =
        (ldstLoop false active tc hw sp pairs tid sa bytes hdr ev').1) ∧
      ((ldstLoop true active tc hw sp pairs tid sa bytes hdr ev).2.2 =
        (ldstLoop false active tc hw sp pairs tid sa bytes hdr ev').2.2) := by
  induction pairs with
  | nil =>
    intro tid sa bytes hdr ev ev' hmask
    exact ⟨rfl, rfl⟩
  | cons p rest ih =>
    intro tid sa bytes hdr ev ev' hmask
    obtain ⟨addr, sz⟩ := p
    have hscan : scanActive active tc tid = tid :=
      scanActive_id active tc tid
        (hmask tid le_rfl (by simp only [List.length_cons]; omega))
    have hmask2 : ∀ i, tid + 1 ≤ i → i < (tid + 1) + rest.length →
        (active.getD i false = true ∨ tc ≤ i) := by
      intro i hi1 hi2
      exact hmask i (by omega) (by simp only [List.length_cons]; omega)
    simp only [ldstLoop, hscan, ite_self, if_pos rfl,
      if_neg Bool.false_ne_true]
    split_ifs with h1 h2 <;>
      exact ⟨(ih _ _ _ _ _ _ hmask2).1, (ih _ _ _ _ _ _ hmask2).2⟩

theorem ldstLoop_true_ev (active : List Bool) (tc hw : Nat)
    (sp : AddressSpace) (pairs : List (Nat × Nat)) :
    ∀ tid sa bytes hdr ev,
      (ldstLoop true active tc hw sp pairs tid sa bytes hdr ev).2.1 = ev := by
  induction pairs with
  | nil => exact fun tid sa bytes hdr ev => rfl
  | cons p rest ih =>
    intro tid sa bytes hdr ev
    obtain ⟨addr, sz⟩ := p
    simp only [ldstLoop, if_pos rfl]
    split_ifs with h1 h2 <;> exact ih _ _ _ _ _

theorem texLoop_true_ev (active : List Bool) (tc hw : Nat)
    (pairs : List (Nat × Nat)) :
    ∀ tid sa bytes hdr ev,
      (texLoop true active tc hw pairs tid sa bytes hdr ev).2.1 = ev := by
  induction pairs with
  | nil => exact fun tid sa bytes hdr ev => rfl
  | cons p rest ih =>
    intro tid sa bytes hdr ev
    obtain ⟨addr, sz⟩ := p
    simp only [texLoop, if_pos rfl]
    split_ifs with h1 h2 <;> exact ih _ _ _ _ _

theorem eventStep_true_io (s : GeneratorState) (e : TraceEvent) :
    (eventStep true s e).archive = s.archive ∧
    (eventStep true s e).curEvent = s.curEvent ∧
    (eventStep true s e).fileOpen = s.fileOpen ∧
    (eventStep true s e).db = s.db ∧
    (eventStep true s e).headerFiles = s.headerFiles := by
  refine ⟨?_, ?_, ?_, ?_, ?_⟩ <;>
    cases hop : e.opcode <;>
      simp only [eventStep, hop, if_pos rfl] <;>
      first
        | rfl
        | exact ldstLoop_true_ev _ _ _ _ _ _ _ _ _ _
        | exact texLoop_true_ev _ _ _ _ _ _ _ _ _

theorem eventStep_thread_count (ho : Bool) (s : GeneratorState)
    (e : TraceEvent) :
    (eventStep ho s e).header.thread_count = s.header.thread_count := by
  cases hop : e.opcode
  case Ld =>
    simp only [eventStep, hop]
    rw [(access_pres _ _ _).2.2.1, (ldstLoop_pres _ _ _ _ _ _ _ _ _ _ _).2.2]
  case St =>
    simp only [eventStep, hop]
    rw [(access_pres _ _ _).2.2.1, (ldstLoop_pres _ _ _ _ _ _ _ _ _ _ _).2.2]
  case Tex =>
    simp only [eventStep, hop]
    rw [(access_pres _ _ _).2.2.1, (texLoop_pres _ _ _ _ _ _ _ _ _ _).2.2]
  case OtherOp =>
    simp [eventStep, hop]

theorem eventStep_headers_eq (s1 s2 : GeneratorState) (e : TraceEvent)
    (hh : s1.header = s2.header)
    (hop : e.opcode = Opcode.Ld ∨ e.opcode = Opcode.St)
    (hmask : ∀ i, i < (e.memory_addresses.zip e.memory_sizes).length →
      (e.active.getD i false = true ∨ s1.header.thread_count ≤ i)) :
    (eventStep true s1 e).header = (eventStep false s2 e).header := by
  rw [hh] at hmask
  have hmask0 : ∀ i, 0 ≤ i →
      i < 0 + (e.memory_addresses.zip e.memory_sizes).length →
      (e.active.getD i false = true ∨ s2.header.thread_count ≤ i) := by
    intro i _ hi
    exact hmask i (by omega)
  rcases hop with hop | hop <;>
  · simp only [eventStep, hop]
    rw [hh]
    simp only [if_pos rfl, if_neg Bool.false_ne_true, eq_self_iff_true,
      if_true, if_false]
    obtain ⟨e1, e2⟩ :=
      ldstLoop_headers_eq e.active _ _ e.addressSpace _ _ _ _ _
        s1.curEvent _ hmask0
    rw [e1, e2]

theorem runEvents_true_io (evts : List TraceEvent) :
    ∀ s : GeneratorState,
      (runEvents true s evts).archive = s.archive ∧
      (runEvents true s evts).curEvent = s.curEvent := by
  induction evts with
  | nil => exact fun s => ⟨rfl, rfl⟩
  | cons e rest ih =>
    intro s
    have h1 := eventStep_true_io s e
    have h2 := ih (eventStep true s e)
    have hr : runEvents true s (e :: rest) =
        runEvents true (eventStep true s e) rest := rfl
    rw [hr]
    exact ⟨h2.1.trans h1.1, h2.2.trans h1.2.1⟩

theorem runEvents_headers_eq (evts : List TraceEvent) :
    ∀ s1 s2 : GeneratorState, s1.header = s2.header →
      (∀ e ∈ evts, e.opcode = Opcode.Ld ∨ e.opcode = Opcode.St) →
      (∀ e ∈ evts, ∀ i,
        i < (e.memory_addresses.zip e.memory_sizes).length →
        (e.active.getD i false = true ∨ s1.header.thread_count ≤ i)) →
      (runEvents true s1 evts).header = (runEvents false s2 evts).header := by
  induction evts with
  | nil => exact fun s1 s2 hh _ _ => hh
  | cons e rest ih =>
    intro s1 s2 hh hop hmask
    have hstep := eventStep_headers_eq s1 s2 e hh
      (hop e (List.mem_cons_self e rest))
      (hmask e (List.mem_cons_self e rest))
    have htc : (eventStep true s1 e).header.thread_count =
        s1.header.thread_count := eventStep_thread_count true s1 e
    have hr1 : runEvents true s1 (e :: rest) =
        runEvents true (eventStep true s1 e) rest := rfl
    have hr2 : runEvents false s2 (e :: rest) =
        runEvents false (eventStep false s2 e) rest := rfl
    rw [hr1, hr2]
    refine ih (eventStep true s1 e) (eventStep false s2 e) hstep
      (fun x hx => hop x (List.mem_cons_of_mem _ hx)) ?_
    intro x hx i hi
    rw [htc]
    exact hmask x (List.mem_cons_of_mem _ hx) i hi

/-- A freshly initialized session with thread count 4 (used to exhibit the
header-only divergence on a partially active warp). -/
def sampleState4 : GeneratorState :=
  { fileOpen := true,
    header := { initHeader with thread_count := 4 },
    curEvent := emptyEvent,
    archive := [],
    entry := ⟨"kernel", "module", "kernel_1.trace", "kernel_1.header"⟩,
    db := [],
    headerFiles := [] }

/-- A load whose active mask skips lanes 1 and 2: the full mode walks lanes
0 and 3 while header-only mode walks lane positions 0 and 1. -/
def c3Event : TraceEvent :=
  { PC := 0, opcode := Opcode.Ld, addressSpace := AddressSpace.Global,
    ctaX := 0, ctaY := 0, ctaZ := 0,
    active := [true, false, false, true],
    memory_addresses := [0, 4],
    memory_sizes := [4, 4] }

/-- Counterexample to claim C3: on a load/store event with a divergent
active mask, header-only mode skips the active-lane scan, so the lane
positions used by the coalescing branch differ and the resulting Header
aggregates differ (global_segments 1 vs 2, halfwarps 0 vs 1 here). -/
theorem c3_counterexample :
    ¬ ((runEvents true sampleState4 [c3Event]).header =
        (runEvents false sampleState4 [c3Event]).header) := by decide

/-- Claim C3 (amended): for every sequence of load/store events in which
each event's active mask covers every walked lane position (no inactive lane
precedes a walked one), the Header produced with headerOnly = true is
identical to the one produced with headerOnly = false on the same sequence;
and with headerOnly = true no Access record is ever appended to the current
Event and nothing is ever serialized to the access log, for any event
sequence and any starting state whatsoever.  (Without the mask condition the
header equality fails: skipping the active-lane scan changes the lane
positions seen by the coalescing heuristic, see the counterexample.) -/
theorem c3_headerOnly_amended (evts : List TraceEvent) (s : GeneratorState)
    (hop : ∀ e ∈ evts, e.opcode = Opcode.Ld ∨ e.opcode = Opcode.St)
    (hmask : ∀ e ∈ evts, ∀ i,
      i < (e.memory_addresses.zip e.memory_sizes).length →
      (e.active.getD i false = true ∨ s.header.thread_count ≤ i)) :
    (runEvents true s evts).header = (runEvents false s evts).header ∧
    (∀ (evts2 : List TraceEvent) (s2 : GeneratorState),
      (runEvents true s2 evts2).archive = s2.archive ∧
      (runEvents true s2 evts2).curEvent = s2.curEvent) :=
  ⟨runEvents_headers_eq evts s s rfl hop hmask,
   fun evts2 s2 =>
     ⟨(runEvents_true_io evts2 s2).1, (runEvents_true_io evts2 s2).2⟩⟩

/-- Witness for C3 (amended): on the fully active [0,4,8,12] load in a
thread-count-8 session both modes produce the same header, and — taking the
unconditional conjunct at the divergent-mask event of the counterexample —
header-only mode leaves the access log and current event untouched even
there. -/
theorem c3_witness :
    (runEvents true sampleState8 [c4Event]).header =
      (runEvents false sampleState8 [c4Event]).header ∧
    (runEvents true sampleState4 [c3Event]).archive =
      sampleState4.archive ∧
    (runEvents true sampleState4 [c3Event]).curEvent =
      sampleState4.curEvent := by
  have h := c3_headerOnly_amended [c4Event] sampleState8
    (by decide) (by decide)
  exact ⟨h.1, (h.2 [c3Event] sampleState4).1, (h.2 [c3Event] sampleState4).2⟩

/-! ## Kernel-parameter extent (MemoryTraceGenerator.cpp, lines 155-235)

`extent` scans every element of every kernel parameter, reconstructing a
candidate address (sub-64-bit elements are shifted into and OR'd onto a
running 64-bit accumulator, most significant chunk first; a 64-bit element
replaces it), resolves it first against the global-allocation table and then
against the current device's allocation table, and accumulates each hit
allocation's size once per distinct base pointer.  The two C++ "miss" encodings
(`space == AddressSpace_Invalid`, `isa == Instruction::Unknown`) are modelled
by `Option`: a resolver returns `none` exactly when the C++ struct carries the
invalid marker.  Union members `val_u8/u16/u32/u64` are modelled by masking the
stored value to the declared width. -/

inductive OperandType where
  | b8
  | s8
  | u8
  | b16
  | s16
  | u16
  | b32
  | s32
  | u32
  | b64
  | s64
  | u64
  | otherType
deriving DecidableEq, Repr

structure Allocation where
  ptr : Nat
  size : Nat
deriving DecidableEq, Repr

structure KernelParameter where
  type : OperandType
  arrayValues : List Nat
deriving DecidableEq, Repr

/-- One switch arm of the address reconstruction (lines 169-202). -/
def packAddress (t : OperandType) (address v : Nat) : Nat :=
  match t with
  | OperandType.b8 | OperandType.s8 | OperandType.u8 =>
    Nat.lor ((address <<< 8) % 2 ^ 64) (v % 2 ^ 8)
  | OperandType.b16 | OperandType.s16 | OperandType.u16 =>
    Nat.lor ((address <<< 16) % 2 ^ 64) (v % 2 ^ 16)
  | OperandType.b32 | OperandType.s32 | OperandType.u32 =>
    Nat.lor ((address <<< 32) % 2 ^ 64) (v % 2 ^ 32)
  | OperandType.b64 | OperandType.s64 | OperandType.u64 => v % 2 ^ 64
  | OperandType.otherType => address

/-- One iteration of the element loop (lines 166-230): reconstructs the next
candidate address, queries the global table first (a hit skips the device
table via `continue`), and on a hit inserts the allocation's base pointer
into the encountered set, adding its size only on first insertion.  State:
(address accumulator, encountered set, running extent). -/
def elemStep (gRes dRes : Nat → Option Allocation) (t : OperandType)
    (st : Nat × List Nat × Nat) (v : Nat) : Nat × List Nat × Nat :=
  let address := packAddress t st.1 v
  match gRes address with
  | some g =>
    if st.2.1.contains g.ptr then (address, st.2.1, st.2.2)
    else (address, g.ptr :: st.2.1, st.2.2 + g.size)
  | none =>
    match dRes address with
    | some al =>
      if st.2.1.contains al.ptr then (address, st.2.1, st.2.2)
      else (address, al.ptr :: st.2.1, st.2.2 + al.size)
    | none => (address, st.2.1, st.2.2)

/-- One iteration of the parameter loop (lines 161-231): the address
accumulator restarts at 0 for each parameter; the encountered set and the
extent total carry across parameters. -/
def paramStep (gRes dRes : Nat → Option Allocation)
    (st : List Nat × Nat) (p : KernelParameter) : List Nat × Nat :=
  (p.arrayValues.foldl (elemStep gRes dRes p.type) (0, st)).2

/-- The `extent` function (lines 155-235). -/
def extent (gRes dRes : Nat → Option Allocation)
    (parameters : List KernelParameter) : Nat :=
  (parameters.foldl (paramStep gRes dRes) ([], 0)).2

/-- The sequence of candidate addresses a parameter's element vector
produces (the running accumulator after each element). -/
def packedAddresses (t : OperandType) (address : Nat) :
    List Nat → List Nat
  | [] => []
  | v :: rest =>
    packAddress t address v ::
      packedAddresses t (packAddress t address v) rest

/-- Resolution of one candidate address: global table first, then the
current-device table. -/
def resolveElem (gRes dRes : Nat → Option Allocation) (a : Nat) :
    Option Allocation :=
  match gRes a with
  | some g => some g
  | none => dRes a

/-- The ordered list of allocation hits over all parameters. -/
def kernelHits (gRes dRes : Nat → Option Allocation)
    (parameters : List KernelParameter) : List Allocation :=
  parameters.foldr
    (fun p acc =>
      (packedAddresses p.type 0 p.arrayValues).filterMap
        (resolveElem gRes dRes) ++ acc) []

/-- Specification-side accumulation following claim C6's words: each hit
allocation's size is added exactly once per distinct allocation identity
(base pointer); elements with no hit contribute nothing (they produce no
entry in the hit list). -/
def dedupSum : List Allocation → List Nat → Nat
  | [], _ => 0
  | al :: rest, seen =>
    if seen.contains al.ptr then dedupSum rest seen
    else al.size + dedupSum rest (al.ptr :: seen)

/-- The set-threaded accumulation step on the flat hit list. -/
def hitStep (st : List Nat × Nat) (al : Allocation) : List Nat × Nat :=
  if st.1.contains al.ptr then st else (al.ptr :: st.1, st.2 + al.size)

theorem elem_fold_eq (g d : Nat → Option Allocation) (t : OperandType)
    (vs : List Nat) :
    ∀ a0 seen tot,
      (vs.foldl (elemStep g d t) (a0, seen, tot)).2 =
        ((packedAddresses t a0 vs).filterMap
          (resolveElem g d)).foldl hitStep (seen, tot) := by
  induction vs with
  | nil => intro a0 seen tot; rfl
  | cons v rest ih =>
    intro a0 seen tot
    rw [List.foldl_cons]
    have hpack : packedAddresses t a0 (v :: rest) =
        packAddress t a0 v ::
          packedAddresses t (packAddress t a0 v) rest := rfl
    rw [hpack, List.filterMap_cons]
    cases hg : g (packAddress t a0 v) with
    | some al =>
      have hres : resolveElem g d (packAddress t a0 v) = some al := by
        simp [resolveElem, hg]
      rw [hres, List.foldl_cons]
      simp only [elemStep, hg, hitStep]
      by_cases hc : seen.contains al.ptr
      · rw [if_pos hc, if_pos hc]
        exact ih _ _ _
      · rw [if_neg hc, if_neg hc]
        exact ih _ _ _
    | none =>
      cases hd : d (packAddress t a0 v) with
      | some al =>
        have hres : resolveElem g d (packAddress t a0 v) = some al := by
          simp [resolveElem, hg, hd]
        rw [hres, List.foldl_cons]
        simp only [elemStep, hg, hd, hitStep]
        by_cases hc : seen.contains al.ptr
        · rw [if_pos hc, if_pos hc]
          exact ih _ _ _
        · rw [if_neg hc, if_neg hc]
          exact ih _ _ _
      | none =>
        have hres : resolveElem g d (packAddress t a0 v) = none := by
          simp [resolveElem, hg, hd]
        rw [hres]
        simp only [elemStep, hg, hd]
        exact ih _ _ _

theorem hitFold_dedup (hits : List Allocation) :
    ∀ seen tot,
      (hits.foldl hitStep (seen, tot)).2 = tot + dedupSum hits seen := by
  induction hits with
  | nil => intro seen tot; simp [dedupSum]
  | cons al rest ih =>
    intro seen tot
    rw [List.foldl_cons]
    simp only [hitStep, dedupSum]
    by_cases hc : seen.contains al.ptr
    · rw [if_pos hc, if_pos hc, ih]
    · rw [if_neg hc, if_neg hc, ih]
      omega

theorem params_fold_eq (g d : Nat → Option Allocation)
    (parameters : List KernelParameter) :
    ∀ st : List Nat × Nat,
      parameters.foldl (paramStep g d) st =
        (kernelHits g d parameters).foldl hitStep st := by
  induction parameters with
  | nil => intro st; rfl
  | cons p rest ih =>
    intro st
    have hk : kernelHits g d (p :: rest) =
        (packedAddresses p.type 0 p.arrayValues).filterMap
          (resolveElem g d) ++ kernelHits g d rest := rfl
    rw [List.foldl_cons, hk, List.foldl_append, ih]
    have hp : paramStep g d st p =
        ((packedAddresses p.type 0 p.arrayValues).filterMap
          (resolveElem g d)).foldl hitStep st := by
      have := elem_fold_eq g d p.type p.arrayValues 0 st.1 st.2
      simpa [paramStep] using this
    rw [hp]

/-- A one-allocation global table (a 256-byte allocation based at 4096) used
to exhibit the aliasing behaviour concretely. -/
def gResSample : Nat → Option Allocation := fun a =>
  if 4096 ≤ a ∧ a < 4096 + 256 then some ⟨4096, 256⟩ else none

def dResSample : Nat → Option Allocation := fun _ => none

/-- Claim C6: the extent computation equals the deduplicated sum over the
ordered allocation-hit list: each distinct allocation identity (base
pointer) contributes its size exactly once no matter how many parameter
elements resolve to it, and elements whose reconstructed address hits
neither table produce no hit and hence contribute nothing (and raise no
error — `extent` is total).  The address reconstruction shared by both
sides packs sub-64-bit elements most-significant-chunk-first into the
running accumulator and lets a 64-bit element replace it outright
(`packAddress`).  Concretely, two 64-bit parameters 4096 and 4100 that
resolve into the same 256-byte allocation contribute 256 exactly once. -/
theorem c6_extent_dedup (g d : Nat → Option Allocation)
    (parameters : List KernelParameter) :
    extent g d parameters =
      dedupSum (kernelHits g d parameters) [] ∧
    extent gResSample dResSample
      [⟨OperandType.u64, [4096]⟩, ⟨OperandType.u64, [4100]⟩] = 256 := by
  constructor
  · have h1 := params_fold_eq g d parameters ([], 0)
    have h2 := hitFold_dedup (kernelHits g d parameters) [] 0
    calc extent g d parameters
        = (parameters.foldl (paramStep g d) ([], 0)).2 := rfl
      _ = ((kernelHits g d parameters).foldl hitStep ([], 0)).2 := by
          rw [h1]
      _ = 0 + dedupSum (kernelHits g d parameters) [] := h2
      _ = dedupSum (kernelHits g d parameters) [] := by omega
  · decide
